import Mathlib

/-!
Verification development for `horror-gen.py`, the quote-video generator.

The Python source is shallowly embedded: strings become `List Char`,
file contents become explicit values, the global random generator
becomes an explicitly threaded stream, subprocess return codes become
boolean oracles, and the file system of the video-assembly stage
becomes an explicit association list.
-/

namespace HorrorGen

/-! ### Models of the Python string primitives used by horror-gen.py -/

/-- The whitespace test of Python `str.split()` / `str.strip()` (ASCII range). -/
def pyIsSpace (c : Char) : Bool :=
  c == ' ' || c == '\t' || c == '\n' || c == '\r' || c == '\x0b' || c == '\x0c'

/-- Python `str.strip()` with no argument: drop leading and trailing whitespace. -/
def pyStrip (l : List Char) : List Char :=
  ((l.dropWhile pyIsSpace).reverse.dropWhile pyIsSpace).reverse

/-- Python `str.split()` with no argument: the maximal runs of
non-whitespace characters, in order. -/
def pySplitWs : List Char → List (List Char)
  | [] => []
  | [c] => if pyIsSpace c then [] else [[c]]
  | c :: d :: rest =>
    if pyIsSpace c then pySplitWs (d :: rest)
    else if pyIsSpace d then [c] :: pySplitWs rest
    else
      match pySplitWs (d :: rest) with
      | [] => [[c]]
      | w :: ws => (c :: w) :: ws

/-- Python `' '.join(words)`. -/
def joinWords : List (List Char) → List Char
  | [] => []
  | [w] => w
  | w :: ws => w ++ ' ' :: joinWords ws

/-! ### The greedy word-wrap of `create_frames_with_text`
(horror-gen.py lines 380-398) -/

/-- horror-gen.py line 385: `max_chars_per_line = 25`. -/
def max_chars_per_line : Nat := 25

/-- The word-wrap loop of `create_frames_with_text` (lines 387-398): `cur` is
`current_line`, the result is the `lines` list (with the final flush of
lines 397-398 included). -/
def wrapAux : List (List Char) → List (List Char) → List (List Char)
  | [], cur => if cur.isEmpty then [] else [joinWords cur]
  | w :: ws, cur =>
    if (joinWords (cur ++ [w])).length ≤ max_chars_per_line then
      wrapAux ws (cur ++ [w])
    else if cur.isEmpty then
      w :: wrapAux ws []
    else
      joinWords cur :: wrapAux ws [w]

/-- The same wrap loop, recording each emitted line as its list of words
instead of as the joined string. -/
def wrapGroups : List (List Char) → List (List Char) → List (List (List Char))
  | [], cur => if cur.isEmpty then [] else [cur]
  | w :: ws, cur =>
    if (joinWords (cur ++ [w])).length ≤ max_chars_per_line then
      wrapGroups ws (cur ++ [w])
    else if cur.isEmpty then
      [w] :: wrapGroups ws []
    else
      cur :: wrapGroups ws [w]

theorem wrapAux_eq_map : ∀ (ws cur : List (List Char)),
    wrapAux ws cur = (wrapGroups ws cur).map joinWords := by
  intro ws
  induction ws with
  | nil =>
    intro cur
    by_cases h : cur.isEmpty <;> simp [wrapAux, wrapGroups, h]
  | cons w ws ih =>
    intro cur
    by_cases h1 : (joinWords (cur ++ [w])).length ≤ max_chars_per_line
    · simp [wrapAux, wrapGroups, h1, ih]
    · by_cases h2 : cur.isEmpty
      · simp [wrapAux, wrapGroups, h1, h2, ih, joinWords]
      · simp [wrapAux, wrapGroups, h1, h2, ih]

theorem wrapGroups_flatten : ∀ (ws cur : List (List Char)),
    (wrapGroups ws cur).flatten = cur ++ ws := by
  intro ws
  induction ws with
  | nil =>
    intro cur
    by_cases h : cur.isEmpty
    · simp [wrapGroups, h, List.isEmpty_iff.mp h]
    · simp [wrapGroups, h]
  | cons w ws ih =>
    intro cur
    by_cases h1 : (joinWords (cur ++ [w])).length ≤ max_chars_per_line
    · simp [wrapGroups, h1, ih]
    · by_cases h2 : cur.isEmpty
      · have hcur := List.isEmpty_iff.mp h2
        subst hcur
        simp only [List.nil_append] at h1
        simp [wrapGroups, h1, ih]
      · simp [wrapGroups, h1, h2, ih]

theorem wrapGroups_budget : ∀ (ws cur : List (List Char)),
    ((joinWords cur).length ≤ max_chars_per_line ∨
      ∃ w, cur = [w] ∧ max_chars_per_line < w.length) →
    ∀ g ∈ wrapGroups ws cur,
      (joinWords g).length ≤ max_chars_per_line ∨
        ∃ w, g = [w] ∧ max_chars_per_line < w.length := by
  intro ws
  induction ws with
  | nil =>
    intro cur hc g hg
    by_cases h : cur.isEmpty
    · simp [wrapGroups, h] at hg
    · simp [wrapGroups, h] at hg
      exact hg ▸ hc
  | cons w ws ih =>
    intro cur hc g hg
    by_cases h1 : (joinWords (cur ++ [w])).length ≤ max_chars_per_line
    · rw [wrapGroups, if_pos h1] at hg
      exact ih (cur ++ [w]) (Or.inl h1) g hg
    · by_cases h2 : cur.isEmpty
      · rw [wrapGroups, if_neg h1, if_pos h2] at hg
        rcases List.mem_cons.mp hg with rfl | hg
        · right
          refine ⟨w, rfl, ?_⟩
          have hcur : cur = [] := List.isEmpty_iff.mp h2
          rw [hcur] at h1
          simpa [joinWords] using Nat.lt_of_not_le h1
        · exact ih [] (Or.inl (by simp [joinWords])) g hg
      · rw [wrapGroups, if_neg h1, if_neg h2] at hg
        rcases List.mem_cons.mp hg with rfl | hg
        · exact hc
        · refine ih [w] ?_ g hg
          by_cases hw : w.length ≤ max_chars_per_line
          · exact Or.inl (by simpa [joinWords] using hw)
          · exact Or.inr ⟨w, rfl, Nat.lt_of_not_le hw⟩

/-- Claim C2: every line produced by the greedy word-wrap has length at most
25 characters (counting the single spaces joining its words), except that a
line may exceed 25 when it is a single input word that alone is longer
than 25 characters. -/
theorem C2_wrap_line_budget (t : List Char) :
    ∀ line ∈ wrapAux (pySplitWs t) [],
      line.length ≤ 25 ∨ (line ∈ pySplitWs t ∧ 25 < line.length) := by
  intro line hline
  rw [wrapAux_eq_map] at hline
  rcases List.mem_map.mp hline with ⟨g, hg, rfl⟩
  have h := wrapGroups_budget (pySplitWs t) [] (Or.inl (by simp [joinWords])) g hg
  rcases h with h | ⟨w, rfl, hw⟩
  · exact Or.inl h
  · right
    have hwmem : w ∈ (wrapGroups (pySplitWs t) []).flatten :=
      List.mem_flatten.mpr ⟨[w], hg, by simp⟩
    rw [wrapGroups_flatten] at hwmem
    simp only [List.nil_append] at hwmem
    exact ⟨by simpa [joinWords] using hwmem, by simpa [joinWords] using hw⟩

theorem C2_wrap_line_budget_witness :
    ("hello world".toList).length ≤ 25 ∨
      ("hello world".toList ∈ pySplitWs "hello world".toList ∧
        25 < ("hello world".toList).length) :=
  C2_wrap_line_budget "hello world".toList "hello world".toList (by decide)

theorem pySplitWs_sound : ∀ (l : List Char), ∀ w ∈ pySplitWs l,
    w ≠ [] ∧ ∀ c ∈ w, pyIsSpace c = false := by
  intro l
  induction l using pySplitWs.induct with
  | case1 => simp [pySplitWs]
  | case2 c h =>
    simp [pySplitWs, h]
  | case3 c h =>
    intro w hw
    simp [pySplitWs, h] at hw
    subst hw
    simp [h]
  | case4 c d rest hc ih =>
    intro w hw
    rw [pySplitWs, if_pos hc] at hw
    exact ih w hw
  | case5 c d rest hc hd ih =>
    intro w hw
    rw [pySplitWs, if_neg hc, if_pos hd] at hw
    rcases List.mem_cons.mp hw with rfl | hw
    · exact ⟨by simp, by simpa using Bool.of_not_eq_true hc⟩
    · exact ih w hw
  | case6 c d rest hc hd hnil ih =>
    intro w hw
    rw [pySplitWs, if_neg hc, if_neg hd, hnil] at hw
    simp at hw
    subst hw
    exact ⟨by simp, by simpa using Bool.of_not_eq_true hc⟩
  | case7 c d rest hc hd v vs hcons ih =>
    intro w hw
    rw [pySplitWs, if_neg hc, if_neg hd, hcons] at hw
    rcases List.mem_cons.mp hw with rfl | hw
    · have hv := ih v (hcons ▸ List.mem_cons_self v vs)
      refine ⟨by simp, ?_⟩
      intro x hx
      rcases List.mem_cons.mp hx with rfl | hx
      · simpa using Bool.of_not_eq_true hc
      · exact hv.2 x hx
    · exact ih w (hcons ▸ List.mem_cons_of_mem v hw)

theorem pySplitWs_word (w : List Char) (hne : w ≠ [])
    (hw : ∀ c ∈ w, pyIsSpace c = false) : pySplitWs w = [w] := by
  induction w with
  | nil => cases hne rfl
  | cons c w ih =>
    cases w with
    | nil => simp [pySplitWs, hw c (by simp)]
    | cons d w2 =>
      have hc := hw c (by simp)
      have hd := hw d (by simp)
      have hrec := ih (by simp) (fun x hx => hw x (List.mem_cons_of_mem c hx))
      simp [pySplitWs, hc, hd, hrec]

theorem pySplitWs_append_word (w rest : List Char) (hne : w ≠ [])
    (hw : ∀ c ∈ w, pyIsSpace c = false) :
    pySplitWs (w ++ ' ' :: rest) = w :: pySplitWs rest := by
  induction w with
  | nil => cases hne rfl
  | cons c w ih =>
    cases w with
    | nil =>
      have hc := hw c (by simp)
      simp [pySplitWs, hc, show pyIsSpace ' ' = true from rfl]
    | cons d w2 =>
      have hc := hw c (by simp)
      have hd := hw d (by simp)
      have hrec := ih (by simp) (fun x hx => hw x (List.mem_cons_of_mem c hx))
      simp only [List.cons_append] at hrec ⊢
      rw [pySplitWs, if_neg (by simp [hc]), if_neg (by simp [hd]), hrec]

theorem pySplitWs_joinWords (g : List (List Char))
    (hg : ∀ w ∈ g, w ≠ [] ∧ ∀ c ∈ w, pyIsSpace c = false) :
    pySplitWs (joinWords g) = g := by
  induction g with
  | nil => simp [joinWords, pySplitWs]
  | cons w g ih =>
    cases g with
    | nil =>
      have h1 := hg w (by simp)
      simpa [joinWords] using pySplitWs_word w h1.1 h1.2
    | cons w2 g2 =>
      have h1 := hg w (by simp)
      have hjw : joinWords (w :: w2 :: g2) = w ++ ' ' :: joinWords (w2 :: g2) := rfl
      rw [hjw, pySplitWs_append_word w _ h1.1 h1.2,
        ih (fun x hx => hg x (List.mem_cons_of_mem w hx))]

theorem map_mem_eq_self {α : Type} (l : List α) (f : α → α)
    (h : ∀ a ∈ l, f a = a) : l.map f = l := by
  induction l with
  | nil => rfl
  | cons a l ih =>
    simp only [List.map_cons, h a (List.mem_cons_self a l),
      ih (fun x hx => h x (List.mem_cons_of_mem a hx))]

/-- Claim C9: the word-wrap loses and duplicates nothing: concatenating the
whitespace-separated words of the produced lines, in order, yields exactly the
whitespace-separated words of the input text. -/
theorem C9_wrap_lossless (t : List Char) :
    ((wrapAux (pySplitWs t) []).map pySplitWs).flatten = pySplitWs t := by
  rw [wrapAux_eq_map, List.map_map]
  have hflat := wrapGroups_flatten (pySplitWs t) []
  simp only [List.nil_append] at hflat
  have hround : ∀ g ∈ wrapGroups (pySplitWs t) [],
      pySplitWs (joinWords g) = g := by
    intro g hg
    apply pySplitWs_joinWords
    intro w hw
    apply pySplitWs_sound t
    have hwmem : w ∈ (wrapGroups (pySplitWs t) []).flatten :=
      List.mem_flatten.mpr ⟨g, hg, hw⟩
    rwa [hflat] at hwmem
  rw [show (pySplitWs ∘ joinWords) = (fun g => pySplitWs (joinWords g)) from rfl,
    map_mem_eq_self _ _ hround, hflat]

/-! ### The quote source `get_horror_movie_quotes` (horror-gen.py lines 65-166)

The ChatGPT responses are modelled as an oracle list: one entry per attempt of
the retry loop, `none` for an attempt that raised an exception (line 147) and
`some content` for the text of a successful completion. -/

/-- Split a file content / response text at newline characters, modelling
Python `content.split('\n')` (and, composed with strip, iteration over the
lines of a text file). -/
def splitLinesNl : List Char → List (List Char)
  | [] => [[]]
  | c :: rest =>
    if c = '\n' then [] :: splitLinesNl rest
    else
      match splitLinesNl rest with
      | [] => [[c]]
      | w :: ws => (c :: w) :: ws

/-- The stripped, non-empty lines of a text, as both the history-file reader
(lines 82-84) and the response reader (line 129) produce them. -/
def nonEmptyLines (content : List Char) : List (List Char) :=
  ((splitLinesNl content).map pyStrip).filter (fun l => !l.isEmpty)

/-- The normalization of lines 86 and 137:
`line.lower().replace('"', '').replace("'", "").strip()`. -/
def pyNormalize (l : List Char) : List Char :=
  pyStrip (((l.map Char.toLower).filter (fun c => !(c == '"'))).filter
    (fun c => !(c == '\'')))

/-- The `used_quotes` set built from the history file (lines 79-87),
as a list of normalized lines. -/
def historyUsed (history : List Char) : List (List Char) :=
  (nonEmptyLines history).map pyNormalize

/-- horror-gen.py line 92: `max_attempts = 5`. -/
def max_attempts : Nat := 5

/-- The body of the per-quote uniqueness check (lines 132-145). The state is
`(all_new_quotes, used_quotes)`; the length guard models the inner
`break` of lines 133-134. -/
def addQuote (count : Nat) (st : List (List Char) × List (List Char))
    (q : List Char) : List (List Char) × List (List Char) :=
  if st.1.length ≥ count then st
  else if pyNormalize q ∈ st.2 then st
  else (st.1 ++ [q], st.2 ++ [pyNormalize q])

/-- One iteration of the attempt loop (lines 95-149): the length guard models
the `break` of lines 96-97, a `none` response models the `except`/`continue`
of lines 147-149. -/
def processAttempt (count : Nat) (st : List (List Char) × List (List Char))
    (resp : Option (List Char)) : List (List Char) × List (List Char) :=
  if st.1.length ≥ count then st
  else
    match resp with
    | none => st
    | some content => (nonEmptyLines content).foldl (addQuote count) st

/-- `get_horror_movie_quotes` (lines 65-166) as a function of the initial
history-file content and the response oracle. Returns the list of new quotes
and the history-file content after the run (the append of lines 159-163). -/
def get_horror_movie_quotes (count : Nat) (history : List Char)
    (responses : List (Option (List Char))) : List (List Char) × List Char :=
  let st := (responses.take max_attempts).foldl (processAttempt count)
    ([], historyUsed history)
  let history2 := if st.1.isEmpty then history
    else history ++ (st.1.map (fun q => q ++ ['\n'])).flatten
  (st.1, history2)

/-- The loop invariant of the uniqueness check: the used-set contains the
initial history normalizations and the normalization of every accepted quote,
and no accepted quote's normalization is in the initial history or repeated. -/
def QInv (used0 : List (List Char))
    (st : List (List Char) × List (List Char)) : Prop :=
  (∀ x ∈ used0, x ∈ st.2) ∧
  (∀ q ∈ st.1, pyNormalize q ∈ st.2) ∧
  (∀ q ∈ st.1, pyNormalize q ∉ used0) ∧
  st.1.Pairwise (fun a b => pyNormalize a ≠ pyNormalize b)

theorem addQuote_inv (count : Nat) (used0 : List (List Char))
    (st : List (List Char) × List (List Char)) (q : List Char)
    (h : QInv used0 st) : QInv used0 (addQuote count st q) := by
  obtain ⟨h1, h2, h3, h4⟩ := h
  unfold addQuote
  split
  · exact ⟨h1, h2, h3, h4⟩
  · split
    · exact ⟨h1, h2, h3, h4⟩
    · rename_i hcnt hmem
      refine ⟨?_, ?_, ?_, ?_⟩
      · intro x hx
        exact List.mem_append.mpr (Or.inl (h1 x hx))
      · intro p hp
        rcases List.mem_append.mp hp with hp | hp
        · exact List.mem_append.mpr (Or.inl (h2 p hp))
        · simp at hp
          subst hp
          simp
      · intro p hp
        rcases List.mem_append.mp hp with hp | hp
        · exact h3 p hp
        · simp at hp
          subst hp
          intro hq0
          exact hmem (h1 _ hq0)
      · rw [List.pairwise_append]
        refine ⟨h4, by simp, ?_⟩
        intro a ha b hb
        simp at hb
        subst hb
        intro heq
        exact hmem (heq ▸ h2 a ha)

theorem foldl_preserve {α β : Type} (P : α → Prop) (f : α → β → α)
    (H : ∀ st b, P st → P (f st b)) :
    ∀ (l : List β) (st : α), P st → P (l.foldl f st) := by
  intro l
  induction l with
  | nil => intro st h; exact h
  | cons b l ih => intro st h; exact ih _ (H st b h)

theorem processAttempt_inv (count : Nat) (used0 : List (List Char))
    (st : List (List Char) × List (List Char)) (resp : Option (List Char))
    (h : QInv used0 st) : QInv used0 (processAttempt count st resp) := by
  unfold processAttempt
  split
  · exact h
  · match resp with
    | none => exact h
    | some content =>
      exact foldl_preserve _ _ (fun s q hs => addQuote_inv count used0 s q hs)
        (nonEmptyLines content) st h

theorem get_quotes_inv (count : Nat) (history : List Char)
    (responses : List (Option (List Char))) :
    QInv (historyUsed history)
      ((responses.take max_attempts).foldl (processAttempt count)
        ([], historyUsed history)) := by
  refine foldl_preserve _ _
    (fun s r hs => processAttempt_inv count (historyUsed history) s r hs) _ _ ?_
  exact ⟨fun x hx => hx, by simp, by simp, by simp⟩

/-- Claim C1: no quote returned by the quote source normalizes to a line
already in the history file at the start of the run, and no two returned
quotes have equal normalizations. -/
theorem C1_quote_source_fresh (count : Nat) (history : List Char)
    (responses : List (Option (List Char))) :
    (∀ q ∈ (get_horror_movie_quotes count history responses).1,
      pyNormalize q ∉ historyUsed history) ∧
    ((get_horror_movie_quotes count history responses).1).Pairwise
      (fun a b => pyNormalize a ≠ pyNormalize b) := by
  have h := get_quotes_inv count history responses
  exact ⟨h.2.2.1, h.2.2.2⟩

theorem C1_quote_source_fresh_witness :
    pyNormalize ['B'] ∉ historyUsed ['a', '\n'] :=
  (C1_quote_source_fresh 2 ['a', '\n'] [some ['A', '\n', 'B']]).1 ['B']
    (by decide)

/-- Claim C10: the run rewrites the history file to exactly the old content
followed by the returned quotes, one per line, in order; in particular an
empty returned list leaves the history file unchanged. -/
theorem C10_history_only_appended (count : Nat) (history : List Char)
    (responses : List (Option (List Char))) :
    (get_horror_movie_quotes count history responses).2 =
      history ++ (((get_horror_movie_quotes count history responses).1).map
        (fun q => q ++ ['\n'])).flatten ∧
    ((get_horror_movie_quotes count history responses).1 = [] →
      (get_horror_movie_quotes count history responses).2 = history) := by
  unfold get_horror_movie_quotes
  constructor
  · by_cases h : ((responses.take max_attempts).foldl (processAttempt count)
      ([], historyUsed history)).1.isEmpty
    · simp [h, List.isEmpty_iff.mp h]
    · simp [h]
  · intro h
    have h2 : ((responses.take max_attempts).foldl (processAttempt count)
        ([], historyUsed history)).1 = [] := h
    simp [h2]

theorem C10_history_only_appended_witness :
    (get_horror_movie_quotes 3 ['h', 'i', '\n'] []).2 = ['h', 'i', '\n'] :=
  (C10_history_only_appended 3 ['h', 'i', '\n'] []).2 (by decide)

/-! ### Quote parsing in `create_frames_with_text` (horror-gen.py lines 290-296) -/

/-- Prepend a character to the first piece of a split result
(helper for `splitSep`). -/
def consHead (c : Char) : List (List Char) → List (List Char)
  | [] => [[c]]
  | w :: ws => (c :: w) :: ws

/-- Python `quote.split(' - ')`: split at every non-overlapping occurrence of
the three-character separator, scanning left to right (line 291). Strings
shorter than the separator cannot contain it and form a single piece. -/
def splitSep : List Char → List (List Char)
  | [] => [[]]
  | [c] => [[c]]
  | [c, d] => [[c, d]]
  | c :: d :: e :: rest =>
    if c = ' ' && d = '-' && e = ' ' then [] :: splitSep rest
    else consHead c (splitSep (d :: e :: rest))

/-- First-occurrence scan for the separator `' - '`: returns the text before
the first occurrence, whether an occurrence exists, and the text after the
first occurrence. -/
def scanSep : List Char → List Char × Bool × List Char
  | [] => ([], false, [])
  | [c] => ([c], false, [])
  | [c, d] => ([c, d], false, [])
  | c :: d :: e :: rest =>
    if c = ' ' && d = '-' && e = ' ' then ([], true, rest)
    else
      let r := scanSep (d :: e :: rest)
      (c :: r.1, r.2.1, r.2.2)

/-- The movie-title default of line 293. -/
def UNKNOWN : List Char := "Unknown".toList

/-- Lines 291-293: `parts = quote.split(' - ')`,
`quote_text = parts[0].strip()`,
`movie_title = parts[1].strip() if len(parts) > 1 else "Unknown"`. -/
def parseQuote (q : List Char) : List Char × List Char :=
  match splitSep q with
  | [] => ([], UNKNOWN)
  | [p0] => (pyStrip p0, UNKNOWN)
  | p0 :: p1 :: _ => (pyStrip p0, pyStrip p1)

/-- The title semantics asserted by the specification: everything after the
first separator (trimmed), `"Unknown"` when there is no separator. -/
def specClaimedTitle (q : List Char) : List Char :=
  if (scanSep q).2.1 = true then pyStrip (scanSep q).2.2 else UNKNOWN

theorem splitSep_eq_scanSep : ∀ (l : List Char),
    splitSep l = (scanSep l).1 ::
      (if (scanSep l).2.1 = true then splitSep (scanSep l).2.2 else []) := by
  intro l
  induction l using splitSep.induct with
  | case1 => simp [splitSep, scanSep]
  | case2 c => simp [splitSep, scanSep]
  | case3 c d => simp [splitSep, scanSep]
  | case4 c d e rest hsep ih =>
    simp [splitSep, scanSep, hsep]
  | case5 c d e rest hsep ih =>
    rw [splitSep, scanSep]
    simp only [hsep, if_false, Bool.false_eq_true]
    rw [ih]
    simp [consHead]

/-- Claim C7 counterexample: on `"A - B - C"` the code takes the text between
the first and second separator as the title, not everything after the first
separator as the claim states. -/
theorem C7_split_counterexample :
    (parseQuote ("A - B - C".toList)).2 ≠ specClaimedTitle ("A - B - C".toList) := by
  decide

/-- Claim C7 (amended): the quote text is everything before the first
`' - '` separator (trimmed); the movie title is the text strictly between the
first separator and the next separator occurrence after it (or the end of the
string), trimmed; when no separator occurs the title is `"Unknown"`. -/
theorem C7_split_first_sep (q : List Char) :
    (parseQuote q).1 = pyStrip (scanSep q).1 ∧
    (parseQuote q).2 =
      (if (scanSep q).2.1 = true then pyStrip (scanSep (scanSep q).2.2).1
       else UNKNOWN) := by
  unfold parseQuote
  rw [splitSep_eq_scanSep q]
  by_cases h : (scanSep q).2.1 = true
  · rw [if_pos h, splitSep_eq_scanSep (scanSep q).2.2]
    simp [h]
  · rw [if_neg h]
    simp [h]

/-! ### The frame loop of `create_frames_with_text` (horror-gen.py lines 271-438)

Pixel-level drawing is delegated to the imaging library; what the loop
determines is, per index, which file is written and from which quote its text
content is derived. An exception raised inside the per-frame `try` block
(lines 289-426) is modelled by an oracle `exc` giving the exception message,
`none` meaning the frame composes normally. -/

/-- Line 296: `re.sub(r'^\d+[\.\)]\s*', '', quote_text)` - remove a leading
run of digits followed by `.` or `)` and optional whitespace; if the pattern
does not match, the text is unchanged. -/
def stripLeadingNum (l : List Char) : List Char :=
  let ds := l.takeWhile Char.isDigit
  if ds.isEmpty then l
  else
    match l.drop ds.length with
    | c :: rest => if c = '.' || c = ')' then rest.dropWhile pyIsSpace else l
    | [] => l

/-- Line 299 / line 431: `FRAMES_DIR / f"frame_{i + 1}.png"`. -/
def framePath (i : Nat) : List Char :=
  "frames/frame_".toList ++ (Nat.repr (i + 1)).toList ++ ".png".toList

/-- A frame file as the loop determines it: either a normally composed frame
carrying the wrapped quote lines and the movie title (lines 290-423), or the
error frame of lines 427-436 carrying the exception text. -/
inductive FrameOut where
  | rendered : List Char → List (List Char) → List Char → FrameOut
  | errorFrame : List Char → List Char → FrameOut
deriving DecidableEq

/-- One iteration of the frame loop at index `i` on `(background_path, quote)`:
the `try` body (parse, number strip, word-wrap, draw, save) or the `except`
fallback writing the error frame at the same path. -/
def composeFrame (exc : Nat → Option (List Char)) (i : Nat)
    (bg q : List Char) : FrameOut :=
  match exc i with
  | some msg => FrameOut.errorFrame (framePath i) ("Error: ".toList ++ msg)
  | none =>
    let parts := parseQuote q
    FrameOut.rendered (framePath i)
      (wrapAux (pySplitWs (stripLeadingNum parts.1)) []) parts.2

/-- The `for i, (background_path, quote) in enumerate(zip(...))` loop of
line 285, appending one entry to `frame_paths` per iteration. -/
def framesLoop (exc : Nat → Option (List Char)) :
    Nat → List (List Char × List Char) → List FrameOut
  | _, [] => []
  | i, p :: rest => composeFrame exc i p.1 p.2 :: framesLoop exc (i + 1) rest

/-- `create_frames_with_text` (lines 271-438). -/
def create_frames_with_text (exc : Nat → Option (List Char))
    (bgs quotes : List (List Char)) : List FrameOut :=
  framesLoop exc 0 (bgs.zip quotes)

theorem framesLoop_length (exc : Nat → Option (List Char)) :
    ∀ (ps : List (List Char × List Char)) (k : Nat),
      (framesLoop exc k ps).length = ps.length := by
  intro ps
  induction ps with
  | nil => intro k; rfl
  | cons p ps ih => intro k; simp [framesLoop, ih]

theorem framesLoop_getElem (exc : Nat → Option (List Char)) :
    ∀ (ps : List (List Char × List Char)) (k i : Nat),
      (framesLoop exc k ps)[i]? =
        (ps[i]?).map (fun p => composeFrame exc (k + i) p.1 p.2) := by
  intro ps
  induction ps with
  | nil => intro k i; simp [framesLoop]
  | cons p ps ih =>
    intro k i
    cases i with
    | zero => simp [framesLoop]
    | succ i =>
      have harith : k + 1 + i = k + (i + 1) := by omega
      simp only [framesLoop, List.getElem?_cons_succ, ih (k + 1) i, harith]

theorem zip_getElem {α β : Type} (l1 : List α) :
    ∀ (l2 : List β) (i : Nat) (a : α) (b : β),
      l1[i]? = some a → l2[i]? = some b → (l1.zip l2)[i]? = some (a, b) := by
  induction l1 with
  | nil => intro l2 i a b h1 h2; simp at h1
  | cons x l1 ih =>
    intro l2 i a b h1 h2
    cases l2 with
    | nil => simp at h2
    | cons y l2 =>
      cases i with
      | zero =>
        simp at h1 h2
        simp [List.zip_cons_cons, h1, h2]
      | succ i =>
        simp only [List.getElem?_cons_succ] at h1 h2
        simp only [List.zip_cons_cons, List.getElem?_cons_succ]
        exact ih l2 i a b h1 h2

/-- Claim C3: on equal-length background and quote lists the frame composer
returns exactly one frame per quote, order preserved: the entry at position
`i` is the frame composed from the i-th background and i-th quote, and when
composing frame `i` raises an exception, position `i` holds the error frame
rather than being dropped. -/
theorem C3_one_frame_per_quote (exc : Nat → Option (List Char))
    (bgs quotes : List (List Char)) (h : bgs.length = quotes.length) :
    (create_frames_with_text exc bgs quotes).length = quotes.length ∧
    (∀ (i : Nat) (bg q : List Char), bgs[i]? = some bg → quotes[i]? = some q →
      (create_frames_with_text exc bgs quotes)[i]? =
        some (composeFrame exc i bg q)) ∧
    (∀ (i : Nat) (msg : List Char), i < quotes.length → exc i = some msg →
      (create_frames_with_text exc bgs quotes)[i]? =
        some (FrameOut.errorFrame (framePath i) ("Error: ".toList ++ msg))) := by
  refine ⟨?_, ?_, ?_⟩
  · rw [create_frames_with_text, framesLoop_length, List.length_zip, h,
      Nat.min_self]
  · intro i bg q hbg hq
    rw [create_frames_with_text, framesLoop_getElem,
      zip_getElem bgs quotes i bg q hbg hq]
    simp
  · intro i msg hi hexc
    have hib : i < bgs.length := h ▸ hi
    obtain ⟨bg, hbg⟩ : ∃ bg, bgs[i]? = some bg :=
      ⟨bgs[i], List.getElem?_eq_getElem hib⟩
    obtain ⟨q, hq⟩ : ∃ q, quotes[i]? = some q :=
      ⟨quotes[i], List.getElem?_eq_getElem hi⟩
    rw [create_frames_with_text, framesLoop_getElem,
      zip_getElem bgs quotes i bg q hbg hq]
    simp [composeFrame, hexc]

theorem C3_one_frame_per_quote_witness :
    (create_frames_with_text (fun _ => none) [['b']] [['q']]).length = 1 :=
  (C3_one_frame_per_quote (fun _ => none) [['b']] [['q']] rfl).1

/-! ### The video assembler `create_video` (horror-gen.py lines 440-612)

Frame paths are taken as already absolute (`os.path.abspath` of line 459 is
the identity on them). Encoder and probe invocations are boolean oracles for
their return codes, and the files the function writes, copies and deletes are
tracked in an explicit association list keyed by path. -/

/-- One line of the concat-demuxer manifest (lines 498-502). -/
inductive ManifestEntry where
  | file : String → ManifestEntry
  | duration : Nat → ManifestEntry
deriving DecidableEq

/-- The `for frame_path in abs_frame_paths` loop of lines 497-499: a `file`
line then a `duration` line per frame. -/
def framePairs (d : Nat) : List String → List ManifestEntry
  | [] => []
  | p :: ps => ManifestEntry.file p :: ManifestEntry.duration d :: framePairs d ps

/-- The full manifest written to the frame-list temp file (lines 494-502):
the per-frame pairs, then - if the frame list is non-empty - the last frame
repeated without a duration (lines 500-502). -/
def writeFrameList (d : Nat) (frames : List String) : List ManifestEntry :=
  framePairs d frames ++
    (match frames.getLast? with
     | some l => [ManifestEntry.file l]
     | none => [])

theorem framePairs_eq_flatten (d : Nat) : ∀ (frames : List String),
    framePairs d frames =
      (frames.map (fun p => [ManifestEntry.file p,
        ManifestEntry.duration d])).flatten := by
  intro frames
  induction frames with
  | nil => rfl
  | cons p ps ih => simp [framePairs, ih]

/-- Claim C4: for a non-empty frame list the manifest is, in order, a `file`
entry then a `duration d` entry per frame, followed by one final `file` entry
repeating the last frame with no duration after it; for an empty frame list
the manifest is empty. -/
theorem C4_manifest_shape (d : Nat) (frames : List String) :
    (frames = [] → writeFrameList d frames = []) ∧
    (∀ h : frames ≠ [],
      writeFrameList d frames =
        (frames.map (fun p => [ManifestEntry.file p,
          ManifestEntry.duration d])).flatten ++
          [ManifestEntry.file (frames.getLast h)]) := by
  constructor
  · intro h
    subst h
    rfl
  · intro h
    rw [writeFrameList, framePairs_eq_flatten, List.getLast?_eq_getLast frames h]

theorem C4_manifest_shape_witness :
    writeFrameList 7 ["a"] = [ManifestEntry.file "a", ManifestEntry.duration 7,
      ManifestEntry.file "a"] :=
  ((C4_manifest_shape 7 ["a"]).2 (by decide)).trans (by decide)

/-- Content of the video files `create_video` produces: the silent
concatenation of the frames (step 1, lines 490-528) or the audio mux over it
(step 2, lines 533-561). -/
inductive VContent where
  | silent : List String → Nat → VContent
  | muxed : List String → Nat → String → VContent
deriving DecidableEq

/-- A file written during `create_video`. -/
inductive FileData where
  | video : VContent → FileData
  | manifest : List ManifestEntry → FileData
deriving DecidableEq

/-- The file system as an association list from path to content; earlier
entries shadow later ones, so prepending models overwriting. -/
def FS : Type := List (String × FileData)

def fsSet (p : String) (d : FileData) (fs : FS) : FS := (p, d) :: fs

def fsGet (p : String) : FS → Option FileData
  | [] => none
  | (q, d) :: rest => if q = p then some d else fsGet p rest

def fsDel (p : String) (fs : FS) : FS :=
  fs.filter (fun e => !(e.1 == p))

theorem fsGet_fsSet_self (p : String) (d : FileData) (fs : FS) :
    fsGet p (fsSet p d fs) = some d := by
  simp [fsGet, fsSet]

theorem fsGet_fsDel (p q : String) (fs : FS) (h : q ≠ p) :
    fsGet p (fsDel q fs) = fsGet p fs := by
  induction fs with
  | nil => rfl
  | cons e fs ih =>
    obtain ⟨e1, e2⟩ := e
    rw [show fsDel q ((e1, e2) :: fs) =
        if e1 = q then fsDel q fs else (e1, e2) :: fsDel q fs from by
      by_cases he : e1 = q <;> simp [fsDel, List.filter_cons, he]]
    by_cases he : e1 = q
    · rw [if_pos he, ih]
      have hp : ¬e1 = p := by
        rw [he]
        exact h
      simp [fsGet, hp]
    · rw [if_neg he]
      simp only [fsGet]
      by_cases hp : e1 = p <;> simp [hp, ih]

/-- The name of the silent video inside the temp directory (line 504). -/
def silentName : String := "/silent_video.mp4"

/-- The oracles of one `create_video` run: `musicExists` is
`os.path.exists` on the music path (line 472), `probeOk` the ffprobe return
code check (lines 478-480), `silentOk` and `muxOk` the return-code checks of
the two ffmpeg invocations (lines 524, 555), `tempDir` the directory from
`tempfile.mkdtemp` (line 464) and `frameListPath` the name from
`NamedTemporaryFile` (line 495). -/
structure VideoEnv where
  musicExists : String → Bool
  probeOk : String → Bool
  silentOk : Bool
  muxOk : Bool
  tempDir : String
  frameListPath : String

/-- `create_video` (lines 440-612). The result is `Except.error 1` when the
process calls `sys.exit(1)` (line 610), and otherwise the returned path
together with the final file system. -/
def create_video (env : VideoEnv) (frames : List String) (outputPath : String)
    (music : Option String) (d : Nat) (fs0 : FS) : Except Nat (String × FS) :=
  let silentPath := env.tempDir ++ silentName
  let fs1 := fsSet env.frameListPath
    (FileData.manifest (writeFrameList d frames)) fs0
  if env.silentOk = false then Except.error 1
  else
    let fs2 := fsSet silentPath (FileData.video (VContent.silent frames d)) fs1
    let step2 : String × FS :=
      match music with
      | some m =>
        if env.musicExists m && env.probeOk m then
          if env.muxOk then
            (outputPath,
              fsSet outputPath (FileData.video (VContent.muxed frames d m)) fs2)
          else (silentPath, fs2)
        else (silentPath, fs2)
      | none => (silentPath, fs2)
    let fs4 :=
      if step2.1 ≠ outputPath then
        match fsGet step2.1 step2.2 with
        | some c => fsSet outputPath c step2.2
        | none => step2.2
      else step2.2
    let fs5 := fsDel silentPath (fsDel env.frameListPath fs4)
    match fsGet outputPath fs5 with
    | some _ => Except.ok (outputPath, fs5)
    | none => Except.error 1

/-- Claim C6: when the phase-1 silent-video encode fails, `create_video`
never returns a path: the process exits with a non-zero status. -/
theorem C6_silent_encode_fatal (env : VideoEnv) (frames : List String)
    (outputPath : String) (music : Option String) (d : Nat) (fs0 : FS)
    (h : env.silentOk = false) :
    create_video env frames outputPath music d fs0 = Except.error 1 := by
  simp [create_video, h]

theorem C6_silent_encode_fatal_witness :
    create_video (VideoEnv.mk (fun _ => true) (fun _ => true) false true
      "/tmp/t" "/tmp/list.txt") ["f1.png"] "/out.mp4" none 10 [] =
      Except.error 1 :=
  C6_silent_encode_fatal (VideoEnv.mk (fun _ => true) (fun _ => true) false
    true "/tmp/t" "/tmp/list.txt") ["f1.png"] "/out.mp4" none 10 [] rfl

/-- Claim C5: when a supplied audio file exists and probes fine but the
audio-mux encode fails, `create_video` neither raises nor exits: it returns
the output path, and the file at the output path is the silent video of
phase 1. The two freshness hypotheses state that the requested output path is
not one of the two temp files created by the run. -/
theorem C5_mux_failure_fallback (env : VideoEnv) (frames : List String)
    (outputPath : String) (m : String) (d : Nat) (fs0 : FS)
    (hex : env.musicExists m = true) (hpr : env.probeOk m = true)
    (hsil : env.silentOk = true) (hmux : env.muxOk = false)
    (hfresh1 : outputPath ≠ env.tempDir ++ silentName)
    (hfresh2 : outputPath ≠ env.frameListPath) :
    ∃ fsFinal, create_video env frames outputPath (some m) d fs0 =
        Except.ok (outputPath, fsFinal) ∧
      fsGet outputPath fsFinal =
        some (FileData.video (VContent.silent frames d)) := by
  unfold create_video
  rw [hsil]
  simp only [Bool.true_eq_false, if_false, hex, hpr, Bool.and_self, if_true,
    hmux, Bool.false_eq_true]
  rw [if_pos (Ne.symm hfresh1)]
  rw [fsGet_fsSet_self]
  rw [fsGet_fsDel _ _ _ (Ne.symm hfresh1), fsGet_fsDel _ _ _ (Ne.symm hfresh2),
    fsGet_fsSet_self]
  exact ⟨_, rfl, by
    rw [fsGet_fsDel _ _ _ (Ne.symm hfresh1), fsGet_fsDel _ _ _ (Ne.symm hfresh2),
      fsGet_fsSet_self]⟩

theorem C5_mux_failure_fallback_witness :
    ∃ fsFinal, create_video (VideoEnv.mk (fun _ => true) (fun _ => true) true
        false "/tmp/t" "/tmp/list.txt") ["f1.png"] "/out.mp4"
        (some "/audio/a.mp3") 10 [] = Except.ok ("/out.mp4", fsFinal) ∧
      fsGet "/out.mp4" fsFinal =
        some (FileData.video (VContent.silent ["f1.png"] 10)) :=
  C5_mux_failure_fallback (VideoEnv.mk (fun _ => true) (fun _ => true) true
    false "/tmp/t" "/tmp/list.txt") ["f1.png"] "/out.mp4" "/audio/a.mp3" 10 []
    rfl rfl rfl rfl (by decide) (by decide)

/-! ### The background renderer `generate_background_image`
(horror-gen.py lines 168-269)

The global `random` generator is modelled as a stream `g : Nat → Nat` read at
an explicitly threaded position, and the two `except` fallbacks (texture
failure at lines 245-247, total failure at lines 263-269) as boolean oracles.
The float expression of lines 212-214 is modelled over exact integers. -/

/-- horror-gen.py line 43. -/
def WIDTH : Nat := 1080

/-- horror-gen.py line 44. -/
def HEIGHT : Nat := 1920

/-- The gradient palette of lines 188-198. -/
def color_pairs : List ((Int × Int × Int) × (Int × Int × Int)) :=
  [((120, 0, 0), (40, 0, 0)),
   ((0, 0, 120), (0, 0, 40)),
   ((80, 0, 100), (30, 0, 40)),
   ((0, 80, 80), (0, 30, 30)),
   ((100, 80, 0), (40, 30, 0)),
   ((80, 80, 80), (30, 30, 30)),
   ((0, 100, 0), (0, 40, 0)),
   ((100, 0, 100), (40, 0, 40)),
   ((100, 50, 0), (40, 20, 0))]

/-- One channel of a gradient row, lines 212-214:
`int(c1 + (c2 - c1) * y / HEIGHT)` with truncation toward zero, over the
exact rationals `(a * HEIGHT + (b - a) * y) / HEIGHT`. -/
def gradChannel (a b y : Int) : Int :=
  Int.tdiv (a * (HEIGHT : Int) + (b - a) * y) (HEIGHT : Int)

/-- The per-row colors of the gradient loop at lines 210-217. -/
def gradientRows (c1 c2 : Int × Int × Int) : List (Int × Int × Int) :=
  (List.range HEIGHT).map (fun y =>
    (gradChannel c1.1 c2.1 (y : Int), gradChannel c1.2.1 c2.2.1 (y : Int),
      gradChannel c1.2.2 c2.2.2 (y : Int)))

/-- `random.randint(lo, hi)` read from the stream `g` at position `k`:
an inclusive-range draw and the next position. -/
def randint (g : Nat → Nat) (k lo hi : Nat) : Nat × Nat :=
  (lo + g k % (hi - lo + 1), k + 1)

/-- The texture loop of lines 229-238: 100 ellipses, each drawn from four
successive `randint` calls (x, y, size, alpha), with the bounding box
`(x - size, y - size, x + size, y + size)`. -/
def textureEllipses (g : Nat → Nat) : Nat → Nat → List (Int × Int × Int × Int × Nat) × Nat
  | 0, k => ([], k)
  | n + 1, k =>
    let rx := randint g k 0 WIDTH
    let ry := randint g rx.2 0 HEIGHT
    let rs := randint g ry.2 5 100
    let ra := randint g rs.2 0 50
    let e : Int × Int × Int × Int × Nat :=
      ((rx.1 : Int) - (rs.1 : Int), (ry.1 : Int) - (rs.1 : Int),
        (rx.1 : Int) + (rs.1 : Int), (ry.1 : Int) + (rs.1 : Int), ra.1)
    let rest := textureEllipses g n ra.2
    (e :: rest.1, rest.2)

/-- What is saved at the image path when the function returns: the textured
gradient (normal path, line 242), the pre-texture gradient (texture failure,
lines 245-247) or the black placeholder (total failure, lines 263-269). -/
inductive BgImage where
  | textured : ((Int × Int × Int) × (Int × Int × Int)) →
      List (Int × Int × Int) → List (Int × Int × Int × Int × Nat) → BgImage
  | basic : ((Int × Int × Int) × (Int × Int × Int)) →
      List (Int × Int × Int) → BgImage
  | black : BgImage

/-- Line 184 / line 266: `IMAGES_DIR / f"background_{index + 1}.png"`. -/
def bgImagePath (index : Nat) : List Char :=
  "images/background_".toList ++ (Nat.repr (index + 1)).toList ++ ".png".toList

/-- `generate_background_image` (lines 168-269) as a function of the quote,
the index, the random stream and position, and the two failure oracles.
Returns the image path, the saved image, and the next stream position. -/
def generate_background_image (quote : List Char) (index : Nat)
    (g : Nat → Nat) (k : Nat) (mainFails textureFails : Bool) :
    List Char × BgImage × Nat :=
  if mainFails then (bgImagePath index, BgImage.black, k)
  else
    let pair := color_pairs.getD (index % color_pairs.length)
      (((0, 0, 0)), ((0, 0, 0)))
    let rows := gradientRows pair.1 pair.2
    if textureFails then (bgImagePath index, BgImage.basic pair rows, k)
    else
      let te := textureEllipses g 100 k
      (bgImagePath index, BgImage.textured pair rows te.1, te.2)

/-- Claim C8: the background image does not depend on the quote content: for
any index, random state and failure behavior, any two quote strings yield the
identical image file (same path, same saved content). -/
theorem C8_background_quote_independent (q1 q2 : List Char) (index : Nat)
    (g : Nat → Nat) (k : Nat) (mainFails textureFails : Bool) :
    generate_background_image q1 index g k mainFails textureFails =
      generate_background_image q2 index g k mainFails textureFails := rfl

end HorrorGen
